import Mathlib

/-!
Verification of the httpie CLI input-parsing core (`httpie/input.py`,
`httpie/client.py`): the escape tokenizer, separator resolver, item
classifier buckets, URL normalization, method inference, auth
post-processing and default-header assembly, shallowly embedded in Lean.
Python strings are modelled as `String` / `List Char`, bytes as
`List Nat`, side-effecting collaborators (filesystem, JSON parser) as
explicit function parameters.
-/

namespace Httpie

/-! ### Constants (httpie/input.py top level) -/

def HTTP_POST : String := "POST"
def HTTP_GET : String := "GET"

def SEP_HEADERS : String := ":"
def SEP_CREDENTIALS : String := ":"
def SEP_DATA : String := "="
def SEP_DATA_RAW_JSON : String := ":="
def SEP_FILES : String := "@"
def SEP_DATA_EMBED_FILE : String := "=@"
def SEP_DATA_EMBED_RAW_JSON_FILE : String := ":=@"
def SEP_QUERY : String := "=="

/-- Embeds `SEP_GROUP_DATA_ITEMS` (a `frozenset` in the source; only membership
is ever used, so a list models it). -/
def SEP_GROUP_DATA_ITEMS : List String :=
  [SEP_DATA, SEP_DATA_RAW_JSON, SEP_FILES, SEP_DATA_EMBED_FILE,
   SEP_DATA_EMBED_RAW_JSON_FILE]

/-- Embeds `SEP_GROUP_DATA_EMBED_ITEMS`. -/
def SEP_GROUP_DATA_EMBED_ITEMS : List String :=
  [SEP_DATA_EMBED_FILE, SEP_DATA_EMBED_RAW_JSON_FILE]

/-- Embeds `SEP_GROUP_RAW_JSON_ITEMS`. -/
def SEP_GROUP_RAW_JSON_ITEMS : List String :=
  [SEP_DATA_RAW_JSON, SEP_DATA_EMBED_RAW_JSON_FILE]

/-- Embeds `SEP_GROUP_ALL_ITEMS`. -/
def SEP_GROUP_ALL_ITEMS : List String :=
  [SEP_HEADERS, SEP_QUERY, SEP_DATA, SEP_DATA_RAW_JSON, SEP_FILES,
   SEP_DATA_EMBED_FILE, SEP_DATA_EMBED_RAW_JSON_FILE]

/-! ### `KeyValue` (httpie/input.py) -/

/-- Embeds `KeyValue`: base key-value pair parsed from the CLI. -/
structure KeyValue where
  key : String
  value : String
  sep : String
  orig : String
  deriving Repr, DecidableEq

/-! ### Escape tokenizer (`KeyValueArgType.__call__.tokenize`) -/

/-- A token is either a plain-text run or a single escaped character
(the `Escaped` marker subclass of `str` in the source). -/
inductive Token where
  | plain (s : List Char)
  | escaped (c : Char)
  deriving Repr, DecidableEq

/-- Per `KeyValueArgType.__init__`, the special characters are the backslash
together with every character of every separator. -/
def specialChars (separators : List String) : List Char :=
  '\\' :: separators.foldr (fun s acc => s.data ++ acc) []

/-- Embeds `tokenize`, carrying the plain-text run currently being accumulated
(the mutable `tokens[-1]` of the source).  A backslash followed by a
special character emits an `escaped` token and starts a fresh plain run;
a backslash followed by any other character keeps both characters
literally; a trailing lone backslash (Python's `next(characters, '')`
returning `''`, which is not special) is kept as a literal backslash. -/
def tokenizeAux (special : List Char) : List Char → List Char → List Token
  | [], acc => [.plain acc]
  | c :: rest, acc =>
    if c = '\\' then
      match rest with
      | [] => [.plain (acc ++ ['\\'])]
      | c' :: rest' =>
        if c' ∈ special then
          .plain acc :: .escaped c' :: tokenizeAux special rest' []
        else
          tokenizeAux special rest' (acc ++ ['\\', c'])
    else tokenizeAux special rest (acc ++ [c])

/-- Embeds `tokenize(string)` with `tokens = ['']` as the start state. -/
def tokenize (special : List Char) (s : List Char) : List Token :=
  tokenizeAux special s []

/-- The text a token contributes to `''.join(tokens)` (an `Escaped`
token stringifies as its single character). -/
def Token.text : Token → List Char
  | .plain s => s
  | .escaped c => [c]

/-- Python `''.join(tokens)`. -/
def joinTokens (ts : List Token) : List Char := ts.foldr (fun t acc => t.text ++ acc) []

/-! ### Separator resolver (`KeyValueArgType.__call__`) -/

/-- Python `str.find`: index of the first occurrence of `pat` in `s`,
`none` when absent. -/
def findSub (s pat : List Char) : Option Nat :=
  if pat.isPrefixOf s then some 0
  else
    match s with
    | [] => none
    | _ :: rest => (findSub rest pat).map (· + 1)

/-- Stable-enough insertion by length, modelling `sorted(separators, key=len)`.
Candidates of equal length can never first-occur at the same position in a
token (distinct equal-length strings differ somewhere), so their relative
order is immaterial. -/
def insertByLen (s : String) : List String → List String
  | [] => [s]
  | t :: ts => if s.length < t.length then s :: t :: ts else t :: insertByLen s ts

/-- Python `sorted(self.separators, key=len)`. -/
def sortByLen (l : List String) : List String := l.foldr insertByLen []

/-- The `found` dictionary of the source, as the ordered list of
`(first-occurrence position, separator)` pairs in separator order. -/
def foundList (seps : List String) (token : List Char) : List (Nat × String) :=
  seps.filterMap fun sep => (findSub token sep.data).map fun p => (p, sep)

/-- Embeds `found[min(found.keys())]`: the last entry attaining the minimal
position (later entries overwrite earlier ones at the same dict key). -/
def pickMinAux (best : Nat × String) : List (Nat × String) → Nat × String
  | [] => best
  | e :: es => pickMinAux (if e.1 ≤ best.1 then e else best) es

/-- Best separator inside one plain token: smallest first-occurrence
position, and at that position the separator written last into `found`
(the longest, thanks to the length sort). -/
def bestSep (seps : List String) (token : List Char) : Option (Nat × String) :=
  match foundList seps token with
  | [] => none
  | f :: fs => some (pickMinAux f fs)

/-- The `for i, token in enumerate(tokens)` loop: skip escaped tokens;
in the first plain token containing a separator, split there; preceding
tokens join into the key, following tokens join into the value.
`pre` accumulates `''.join(tokens[:i])`. -/
def resolveLoop (seps : List String) : List Token → List Char →
    Option (List Char × List Char × String)
  | [], _ => none
  | .escaped c :: rest, pre => resolveLoop seps rest (pre ++ [c])
  | .plain t :: rest, pre =>
    match bestSep seps t with
    | some (pos, sep) =>
      some (pre ++ t.take pos,
            t.drop (pos + sep.length) ++ joinTokens rest,
            sep)
    | none => resolveLoop seps rest (pre ++ t)

/-- Embeds `KeyValueArgType.__call__`: tokenize, resolve the best separator,
build the `KeyValue`; raise `'"<string>" is not a valid value'` when no
un-escaped separator occurs. -/
def keyValueArgCall (separators : List String) (string : String) :
    Except String KeyValue :=
  match resolveLoop (sortByLen separators)
      (tokenize (specialChars separators) string.data) [] with
  | some (key, value, sep) =>
    .ok { key := ⟨key⟩, value := ⟨value⟩, sep := sep, orig := string }
  | none => .error ("\"" ++ string ++ "\" is not a valid value")

/-! ### Escape semantics: literal reconstruction -/

/-- The literal text an item string denotes once escapes are resolved
(spec §4.1): a backslash before a special character yields just that
character, a backslash before any other character keeps both characters,
and a trailing lone backslash is a literal backslash. -/
def unescape (special : List Char) : List Char → List Char
  | [] => []
  | c :: rest =>
    if c = '\\' then
      match rest with
      | [] => ['\\']
      | c' :: rest' =>
        if c' ∈ special then c' :: unescape special rest'
        else '\\' :: c' :: unescape special rest'
    else c :: unescape special rest

/-! ### `RequestItemsDict` (multi-value dict for params and form data) -/

/-- The value state of one `RequestItemsDict` entry: a plain value until
the key repeats, from then on the list of all assigned values. -/
inductive MultiVal (α : Type) where
  | single (v : α)
  | multi (vs : List α)
  deriving Repr, DecidableEq

/-- Embeds `RequestItemsDict.__setitem__`: a first assignment stores the plain
value; a repeated key wraps the existing value into a list and appends
(the key keeps its original position). -/
def ridSet {α : Type} : List (String × MultiVal α) → String → α →
    List (String × MultiVal α)
  | [], k, v => [(k, .single v)]
  | (k', mv) :: rest, k, v =>
    if k' = k then
      (k', match mv with
           | .single old => .multi [old, v]
           | .multi vs => .multi (vs ++ [v])) :: rest
    else (k', mv) :: ridSet rest k v

/-- Initializing a `RequestItemsDict` from a pair list calls
`__setitem__` once per pair, in order. -/
def ridOfList {α : Type} (pairs : List (String × α)) :
    List (String × MultiVal α) :=
  pairs.foldl (fun d p => ridSet d p.1 p.2) []

/-- Ordered-mapping lookup. -/
def dictLookup {β : Type} (k : String) : List (String × β) → Option β
  | [] => none
  | (k', v) :: rest => if k' = k then some v else dictLookup k rest

/-- All values assigned to key `k`, in argument order. -/
def valsOf {α : Type} (k : String) (pairs : List (String × α)) : List α :=
  pairs.filterMap fun p => if p.1 = k then some p.2 else none

/-- Spec-side view: no assignment, exactly one, or the full list. -/
def reprVals {α : Type} : List α → Option (MultiVal α)
  | [] => none
  | v :: vs => some (if vs.isEmpty then .single v else .multi (v :: vs))

/-- Key sequence of an ordered mapping. -/
def keysOf {β : Type} (d : List (String × β)) : List String := d.map Prod.fst

/-- Keys in order of first appearance. -/
def firstOccur (l : List String) : List String :=
  l.foldl (fun acc k => if k ∈ acc then acc else acc ++ [k]) []

/-! ### `OrderedDict` (single-value ordered mapping) -/

/-- Python `OrderedDict` assignment: an existing key keeps its position and gets
the new value (the later write silently replaces the earlier one); a new
key is appended. -/
def odSet {α : Type} : List (String × α) → String → α → List (String × α)
  | [], k, v => [(k, v)]
  | (k', v') :: rest, k, v =>
    if k' = k then (k', v) :: rest else (k', v') :: odSet rest k v

/-- Python `OrderedDict(pairs)`: one assignment per pair, in order. -/
def odOfList {α : Type} (pairs : List (String × α)) : List (String × α) :=
  pairs.foldl (fun d p => odSet d p.1 p.2) []

/-! ### UTF-8 decoding (Python `bytes.decode('utf8')`) -/

/-- A UTF-8 continuation byte. -/
def isCont (b : Nat) : Bool := 0x80 ≤ b && b ≤ 0xBF

/-- Lower bound for the first continuation byte in a 3-byte sequence
(excludes overlong encodings). -/
def cont1Lo3 (b : Nat) : Nat := if b = 0xE0 then 0xA0 else 0x80

/-- Upper bound for the first continuation byte in a 3-byte sequence
(excludes UTF-16 surrogates). -/
def cont1Hi3 (b : Nat) : Nat := if b = 0xED then 0x9F else 0xBF

/-- Lower bound for the first continuation byte in a 4-byte sequence. -/
def cont1Lo4 (b : Nat) : Nat := if b = 0xF0 then 0x90 else 0x80

/-- Upper bound for the first continuation byte in a 4-byte sequence
(keeps code points at most `U+10FFFF`). -/
def cont1Hi4 (b : Nat) : Nat := if b = 0xF4 then 0x8F else 0xBF

/-- Strict UTF-8 decoding, as Python's `bytes.decode('utf8')`: rejects
truncated sequences, stray continuation bytes, overlong encodings,
surrogates and code points beyond `U+10FFFF`. -/
def decodeUtf8Chars : List Nat → Option (List Char)
  | [] => some []
  | b :: rest =>
    if b < 0x80 then
      (decodeUtf8Chars rest).map (fun cs => Char.ofNat b :: cs)
    else if 0xC2 ≤ b && b ≤ 0xDF then
      match rest with
      | b2 :: rest2 =>
        if isCont b2 then
          (decodeUtf8Chars rest2).map
            (fun cs => Char.ofNat ((b - 0xC0) * 0x40 + (b2 - 0x80)) :: cs)
        else none
      | [] => none
    else if 0xE0 ≤ b && b ≤ 0xEF then
      match rest with
      | b2 :: b3 :: rest3 =>
        if (cont1Lo3 b ≤ b2 && b2 ≤ cont1Hi3 b) && isCont b3 then
          (decodeUtf8Chars rest3).map
            (fun cs => Char.ofNat
              ((b - 0xE0) * 0x1000 + (b2 - 0x80) * 0x40 + (b3 - 0x80)) :: cs)
        else none
      | _ => none
    else if 0xF0 ≤ b && b ≤ 0xF4 then
      match rest with
      | b2 :: b3 :: b4 :: rest4 =>
        if ((cont1Lo4 b ≤ b2 && b2 ≤ cont1Hi4 b) && isCont b3) && isCont b4 then
          (decodeUtf8Chars rest4).map
            (fun cs => Char.ofNat
              ((b - 0xF0) * 0x40000 + (b2 - 0x80) * 0x1000 +
                (b3 - 0x80) * 0x40 + (b4 - 0x80)) :: cs)
        else none
      | _ => none
    else none

/-- Python `bytes.decode('utf8')` into a `String`, `none` on decode failure. -/
def decodeUtf8 (bs : List Nat) : Option String :=
  (decodeUtf8Chars bs).map fun cs => ⟨cs⟩

/-! ### `parse_items` (item classifier, httpie/input.py) -/

/-- Python `os.path.basename`: the part after the last slash. -/
def basename (s : String) : String :=
  ⟨s.data.foldl (fun acc c => if c = '/' then [] else acc ++ [c]) []⟩

/-- A classified body-field value: plain text, or the external JSON
parser's result (type parameter `J`) for raw-JSON items. -/
inductive DataValue (J : Type) where
  | str (s : String)
  | jsonVal (j : J)
  deriving Repr, DecidableEq

/-- The four bucket pair lists built by `parse_items`, before wrapping in
the bucket classes (`headers_class` and friends). -/
structure RequestItems (J : Type) where
  headers : List (String × String)
  data : List (String × DataValue J)
  files : List (String × (String × List Nat))
  params : List (String × String)
  deriving Repr, DecidableEq

/-- The embed step for `SEP_GROUP_DATA_EMBED_ITEMS` (`=@`, `:=@`): read
the named file's bytes via the filesystem collaborator `fs` (`.error` is
an `IOError` message) and decode them as UTF-8, with the exact ParseError
messages of the source. -/
def embeddedText (fs : String → Except String (List Nat)) (item : KeyValue) :
    Except String String :=
  if item.sep ∈ SEP_GROUP_DATA_EMBED_ITEMS then
    match fs item.value with
    | .error e => .error ("\"" ++ item.orig ++ "\": " ++ e)
    | .ok bytes =>
      match decodeUtf8 bytes with
      | none =>
        .error ("\"" ++ item.orig ++ "\": cannot embed the content of \"" ++
          item.value ++ "\", not a UTF8 or ASCII-encoded text file")
      | some text => .ok text
  else .ok item.value

/-- The data-item value transformation of `parse_items`: embed-file items
read and decode the file, raw-JSON items then parse the (possibly
embedded) text with the external `load_json_preserve_order`, modelled by
the parameter `loadJson`. -/
def dataValue {J : Type} (fs : String → Except String (List Nat))
    (loadJson : String → Except String J) (item : KeyValue) :
    Except String (DataValue J) :=
  match embeddedText fs item with
  | .error e => .error e
  | .ok text =>
    if item.sep ∈ SEP_GROUP_RAW_JSON_ITEMS then
      match loadJson text with
      | .error e => .error ("\"" ++ item.orig ++ "\": " ++ e)
      | .ok j => .ok (.jsonVal j)
    else .ok (.str text)

/-- Embeds `parse_items` (httpie/input.py lines 601-659): classify each item by
its separator into headers, params, files or data, reading files and
decoding JSON as required; the first failing item aborts with its error.
The source appends to four lists in one pass; recursing on the head and
prepending preserves the same order. -/
def parse_items {J : Type} (fs : String → Except String (List Nat))
    (loadJson : String → Except String J) :
    List KeyValue → Except String (RequestItems J)
  | [] => .ok ⟨[], [], [], []⟩
  | item :: items =>
    if item.sep = SEP_HEADERS then
      match parse_items fs loadJson items with
      | .error e => .error e
      | .ok r => .ok { r with headers := (item.key, item.value) :: r.headers }
    else if item.sep = SEP_QUERY then
      match parse_items fs loadJson items with
      | .error e => .error e
      | .ok r => .ok { r with params := (item.key, item.value) :: r.params }
    else if item.sep = SEP_FILES then
      match fs item.value with
      | .error e => .error ("\"" ++ item.orig ++ "\": " ++ e)
      | .ok bytes =>
        match parse_items fs loadJson items with
        | .error e => .error e
        | .ok r =>
          .ok { r with files :=
            (item.key, (basename item.value, bytes)) :: r.files }
    else if item.sep ∈ SEP_GROUP_DATA_ITEMS then
      match dataValue fs loadJson item with
      | .error e => .error e
      | .ok v =>
        match parse_items fs loadJson items with
        | .error e => .error e
        | .ok r => .ok { r with data := (item.key, v) :: r.data }
    else .error ("TypeError: " ++ item.orig)

/-- The wrapped body-fields bucket: `Parser._parse_items` passes
`data_class=ParamsDict if self.args.form else OrderedDict` to
`parse_items`, so only form mode selects the multi-value bucket. -/
inductive DataBucket (J : Type) where
  | singleValued (d : List (String × DataValue J))
  | multiValued (d : List (String × MultiVal (DataValue J)))
  deriving Repr

/-- The `data_class(data)` wrap with the class choice of
`Parser._parse_items`. -/
def makeDataBucket {J : Type} (form : Bool)
    (pairs : List (String × DataValue J)) : DataBucket J :=
  if form then .multiValued (ridOfList pairs) else .singleValued (odOfList pairs)

/-! ### URL normalization (`Parser.parse_args`, input.py lines 139-150) -/

def HTTP : String := "http://"
def HTTPS : String := "https://"

/-- First character of `URL_SCHEME_RE`: `[a-z]` with `IGNORECASE`. -/
def isSchemeStart (c : Char) : Bool :=
  ('a' ≤ c && c ≤ 'z') || ('A' ≤ c && c ≤ 'Z')

/-- Tail characters of `URL_SCHEME_RE`: `[a-z0-9.+-]` with `IGNORECASE`. -/
def isSchemeTail (c : Char) : Bool :=
  isSchemeStart c || c.isDigit || c = '.' || c = '+' || c = '-'

/-- Embeds `URL_SCHEME_RE.match(url)`: `^[a-z][a-z0-9.+-]*://` (IGNORECASE).
Neither `:` nor `/` is in the character class, so the greedy maximal run
of class characters followed by a literal `://` test is exact. -/
def urlSchemeMatch (s : String) : Bool :=
  match s.data with
  | [] => false
  | c :: rest =>
    isSchemeStart c && List.isPrefixOf "://".data (rest.dropWhile isSchemeTail)

/-- The shorthand regex `^:(?!:)(\d*)(/?.*)$` of `parse_args`: a leading
colon not followed by another colon, the greedy digit run (group 1,
the port), then the rest of the line (group 2).  Per `$` and `.`
semantics the remainder may hold at most a single trailing newline,
which is not captured by group 2. -/
def shorthandMatch (s : List Char) : Option (List Char × List Char) :=
  match s with
  | ':' :: rest =>
    match rest with
    | ':' :: _ => none
    | _ =>
      let digits := rest.takeWhile Char.isDigit
      let r := rest.drop digits.length
      let body := r.takeWhile (fun c => c != '\n')
      let tail := r.drop body.length
      if tail = [] ∨ tail = ['\n'] then some (digits, body) else none
  | _ => none

/-- The URL normalization step of `Parser.parse_args`: a recognized
scheme is kept; the `:port/path` shorthand expands to
`http://localhost[:port]` plus the rest; anything else gets `http://`
prepended. -/
def normalizeURL (url : String) : String :=
  if urlSchemeMatch url then url
  else
    match shorthandMatch url.data with
    | some (port, rest) =>
      HTTP ++ "localhost" ++
        (if port.isEmpty then "" else ":" ++ (⟨port⟩ : String)) ++
        (⟨rest⟩ : String)
    | none => HTTP ++ url

/-! ### Method inference (`Parser._guess_method`, input.py lines 267-278) -/

/-- The no-method branch of `_guess_method`: with no explicit method
token (and hence no item arguments, per the source's assertion), infer
`POST` exactly when stdin is neither ignored nor a terminal, else
`GET`. -/
def guessMethodDefault (ignoreStdin stdinIsatty : Bool) : String :=
  if !ignoreStdin && !stdinIsatty then HTTP_POST else HTTP_GET

/-! ### Auth post-processing (`Parser._process_auth`, input.py 204-229) -/

/-- Embeds `AuthCredentials`: `value = none` models Python `None`
(`has_password` is `value is not None`). -/
structure AuthCredentials where
  key : String
  value : Option String
  sep : String
  orig : String
  deriving Repr, DecidableEq

/-- The fields of `urlsplit(url)` that `_process_auth` consults. -/
structure UrlSplit where
  username : Option String
  password : Option String
  netloc : String
  deriving Repr, DecidableEq

/-- The observable outcome of `Parser._process_auth`. -/
inductive AuthAction where
  | noChange
  | promptPassword (key netloc : String)
  | configError (msg : String)
  | setFromUrl (c : AuthCredentials)
  deriving Repr, DecidableEq

/-- Embeds `Parser._process_auth`: an explicit credential without a password
prompts for one, unless `--ignore-stdin` is set, which is a fatal error;
with no explicit credential, URL-embedded `user:pass@` credentials are
synthesized without prompting. -/
def processAuth (auth : Option AuthCredentials) (ignoreStdin : Bool)
    (url : UrlSplit) : AuthAction :=
  match auth with
  | some a =>
    if a.value.isNone then
      if ignoreStdin then
        .configError "Unable to prompt for passwords because --ignore-stdin is set."
      else .promptPassword a.key url.netloc
    else .noChange
  | none =>
    match url.username with
    | some u =>
      .setFromUrl { key := u, value := some (url.password.getD ""),
                    sep := SEP_CREDENTIALS,
                    orig := u ++ SEP_CREDENTIALS ++ url.password.getD "" }
    | none => .noChange

/-- Whether `parse_args` has already read standard input to the end by
the time `_process_auth` runs (input.py lines 137-138): stdin is
consumed exactly when it is neither ignored nor a terminal. -/
def stdinConsumed (ignoreStdin stdinIsatty : Bool) : Bool :=
  !ignoreStdin && !stdinIsatty

/-! ### Default headers and body serialization (httpie/client.py) -/

def FORM : String := "application/x-www-form-urlencoded; charset=utf-8"
def JSON : String := "application/json"

/-- Embeds `DEFAULT_UA` (`HTTPie/` plus the external version string, which is
not relevant to any claim). -/
def DEFAULT_UA : String := "HTTPie/dev"

/-- The slice of parsed `args` consulted by `get_default_headers` and
the body serialization of `get_requests_kwargs`.  `data` is the Body
Fields mapping built from data items (the dict case; a raw stdin/file
body replaces it outside the modelled claims), `files` matters only
through emptiness. -/
structure ClientArgs where
  json : Bool
  form : Bool
  data : List (String × String)
  files : List (String × String)
  deriving Repr, DecidableEq

/-- Embeds `auto_json = args.data and not args.form` (Python truthiness: an
empty dict is falsy). -/
def autoJson (args : ClientArgs) : Bool := !args.data.isEmpty && !args.form

/-- Embeds `get_default_headers` (client.py lines 66-82). -/
def get_default_headers (args : ClientArgs) : List (String × String) :=
  let base := [("User-Agent", DEFAULT_UA)]
  if args.json || autoJson args then
    let h := base ++ [("Accept", "application/json")]
    if args.json || (autoJson args && !args.data.isEmpty) then
      h ++ [("Content-Type", JSON)]
    else h
  else if args.form && args.files.isEmpty then base ++ [("Content-Type", FORM)]
  else base

/-- A model of the external `json.dumps` on a string-valued object: it
always yields a braced JSON object text (its exact escaping is not
relevant to any claim). -/
def jsonDumps (fields : List (String × String)) : String :=
  "\x7b" ++ String.intercalate ", "
    (fields.map fun p => "\"" ++ p.1 ++ "\": \"" ++ p.2 ++ "\"") ++ "\x7d"

/-- The request body after the serialization step of
`get_requests_kwargs` (client.py lines 90-94): in JSON mode the fields
dict is serialized — `json.dumps(data) if data else ''` — otherwise the
mapping passes through for form encoding. -/
inductive RequestBody where
  | text (s : String)
  | fields (l : List (String × String))
  deriving Repr, DecidableEq

/-- The serialization step of `get_requests_kwargs`. -/
def requestData (args : ClientArgs) : RequestBody :=
  if args.json || autoJson args then
    .text (if !args.data.isEmpty then jsonDumps args.data else "")
  else .fields args.data

/-! ### Correctness of `findSub` (Python `str.find`) -/

theorem findSub_some_isPre {pat : List Char} :
    ∀ {s : List Char} {p : Nat}, findSub s pat = some p → pat <+: s.drop p := by
  intro s
  induction s with
  | nil =>
    intro p h
    rw [findSub] at h
    split at h
    next hpre =>
      cases h
      rw [List.drop_nil]
      exact List.isPrefixOf_iff_prefix.mp hpre
    next => exact absurd h (by simp)
  | cons c rest ih =>
    intro p h
    rw [findSub] at h
    split at h
    next hpre =>
      cases h
      rw [List.drop_zero]
      exact List.isPrefixOf_iff_prefix.mp hpre
    next hpre =>
      cases hf : findSub rest pat with
      | none => rw [hf] at h; simp at h
      | some p' =>
        rw [hf] at h
        simp only [Option.map_some'] at h
        cases h
        rw [List.drop_succ_cons]
        exact ih hf

theorem findSub_some_min {pat : List Char} :
    ∀ {s : List Char} {p : Nat}, findSub s pat = some p →
      ∀ q, pat <+: s.drop q → p ≤ q := by
  intro s
  induction s with
  | nil =>
    intro p h q _
    rw [findSub] at h
    split at h
    · cases h; exact Nat.zero_le q
    · exact absurd h (by simp)
  | cons c rest ih =>
    intro p h q hq
    rw [findSub] at h
    split at h
    next hpre => cases h; exact Nat.zero_le q
    next hpre =>
      cases hf : findSub rest pat with
      | none => rw [hf] at h; simp at h
      | some p' =>
        rw [hf] at h
        simp only [Option.map_some'] at h
        cases h
        cases q with
        | zero =>
          simp only [List.drop_zero] at hq
          exact absurd (List.isPrefixOf_iff_prefix.mpr hq) hpre
        | succ q' =>
          simp only [List.drop_succ_cons] at hq
          exact Nat.succ_le_succ (ih hf q' hq)

theorem findSub_none {pat : List Char} :
    ∀ {s : List Char}, findSub s pat = none → ∀ q, ¬ pat <+: s.drop q := by
  intro s
  induction s with
  | nil =>
    intro h q hq
    rw [findSub] at h
    split at h
    next => exact absurd h (by simp)
    next hpre =>
      rw [List.drop_nil] at hq
      exact hpre (List.isPrefixOf_iff_prefix.mpr hq)
  | cons c rest ih =>
    intro h q hq
    rw [findSub] at h
    split at h
    next => exact absurd h (by simp)
    next hpre =>
      cases hf : findSub rest pat with
      | some p' => rw [hf] at h; simp at h
      | none =>
        cases q with
        | zero =>
          simp only [List.drop_zero] at hq
          exact absurd (List.isPrefixOf_iff_prefix.mpr hq) hpre
        | succ q' =>
          simp only [List.drop_succ_cons] at hq
          exact ih hf q' hq

theorem exists_drop_iff_isInfix {pat s : List Char} :
    (∃ p, pat <+: s.drop p) ↔ pat <:+: s := by
  constructor
  · rintro ⟨p, t, ht⟩
    exact ⟨s.take p, t, by rw [List.append_assoc, ht, List.take_append_drop]⟩
  · rintro ⟨u, v, huv⟩
    refine ⟨u.length, v, ?_⟩
    rw [← huv, List.append_assoc, List.drop_left]

/-! ### Correctness of the `found`-dictionary minimum selection -/

/-- Specification of `pickMinAux`: the result is one of the candidates,
attains the minimal position, and — provided entries at equal positions
are listed in weakly increasing separator length, as guaranteed by the
length sort — is longest among the candidates at that minimal position. -/
theorem pickMinAux_spec :
    ∀ (es : List (Nat × String)) (best : Nat × String),
      List.Pairwise (fun a b : Nat × String =>
        a.1 = b.1 → a.2.length ≤ b.2.length) (best :: es) →
      pickMinAux best es ∈ best :: es ∧
      (∀ e ∈ best :: es, (pickMinAux best es).1 ≤ e.1) ∧
      (∀ e ∈ best :: es, e.1 = (pickMinAux best es).1 →
        e.2.length ≤ (pickMinAux best es).2.length) := by
  intro es
  induction es with
  | nil =>
    intro best _
    rw [pickMinAux]
    refine ⟨List.mem_cons_self best [], ?_, ?_⟩
    · intro e he
      rw [List.mem_singleton.mp he]
    · intro e he _
      rw [List.mem_singleton.mp he]
  | cons e₀ es' ih =>
    intro best hpw
    obtain ⟨hbest, htail⟩ := List.pairwise_cons.mp hpw
    rw [pickMinAux]
    by_cases hle : e₀.1 ≤ best.1
    · rw [if_pos hle]
      obtain ⟨hmem, hmin, hlong⟩ := ih e₀ htail
      refine ⟨List.mem_cons_of_mem best hmem, ?_, ?_⟩
      · intro e he
        rcases List.mem_cons.mp he with heq | he'
        · rw [heq]
          exact le_trans (hmin e₀ (List.mem_cons_self e₀ es')) hle
        · exact hmin e he'
      · intro e he heq
        rcases List.mem_cons.mp he with heq' | he'
        · rw [heq']
          exact hbest _ hmem (by rw [← heq']; exact heq)
        · exact hlong e he' heq
    · rw [if_neg hle]
      have hgt' : best.1 < e₀.1 := Nat.lt_of_not_le hle
      have hpw' : List.Pairwise (fun a b : Nat × String =>
          a.1 = b.1 → a.2.length ≤ b.2.length) (best :: es') :=
        List.pairwise_cons.mpr
          ⟨fun b hb => hbest b (List.mem_cons_of_mem e₀ hb),
           (List.pairwise_cons.mp htail).2⟩
      obtain ⟨hmem, hmin, hlong⟩ := ih best hpw'
      have hminbest : (pickMinAux best es').1 ≤ best.1 :=
        hmin best (List.mem_cons_self best es')
      refine ⟨?_, ?_, ?_⟩
      · rcases List.mem_cons.mp hmem with heq | h
        · rw [heq]
          exact List.mem_cons_self best (e₀ :: es')
        · exact List.mem_cons_of_mem best (List.mem_cons_of_mem e₀ h)
      · intro e he
        rcases List.mem_cons.mp he with heq | he'
        · rw [heq]
          exact hminbest
        · rcases List.mem_cons.mp he' with heq' | he''
          · rw [heq']
            exact le_of_lt (lt_of_le_of_lt hminbest hgt')
          · exact hmin e (List.mem_cons_of_mem best he'')
      · intro e he heq
        rcases List.mem_cons.mp he with heq' | he'
        · rw [heq']
          exact hlong best (List.mem_cons_self best es')
            ((congrArg Prod.fst heq').symm.trans heq)
        · rcases List.mem_cons.mp he' with heq'' | he''
          · exfalso
            rw [heq''] at heq
            omega
          · exact hlong e (List.mem_cons_of_mem best he'') heq

/-- Membership characterization of the `found` list. -/
theorem mem_foundList {seps : List String} {token : List Char} {p : Nat} {sep : String} :
    (p, sep) ∈ foundList seps token ↔
      sep ∈ seps ∧ findSub token sep.data = some p := by
  simp only [foundList, List.mem_filterMap, Option.map_eq_some']
  constructor
  · rintro ⟨a, ha, q, hq, heq⟩
    injection heq with h1 h2
    subst h1
    subst h2
    exact ⟨ha, hq⟩
  · rintro ⟨ha, hq⟩
    exact ⟨sep, ha, p, hq, rfl⟩

/-- The full specification of `bestSep` on a single token: it returns the
earliest-starting occurrence of any candidate, and among the candidates
occurring at that position, a longest one. -/
theorem bestSep_spec {seps : List String} {token : List Char}
    (hpw : List.Pairwise (fun a b : String => a.length ≤ b.length) seps)
    (hocc : ∃ sep ∈ seps, sep.data <:+: token) :
    ∃ p sep, bestSep seps token = some (p, sep) ∧ sep ∈ seps ∧
      sep.data <+: token.drop p ∧
      (∀ sep' ∈ seps, ∀ q, sep'.data <+: token.drop q → p ≤ q) ∧
      (∀ sep' ∈ seps, sep'.data <+: token.drop p → sep'.length ≤ sep.length) := by
  obtain ⟨sep₀, hsep₀, hinf₀⟩ := hocc
  obtain ⟨q₀, hq₀⟩ := exists_drop_iff_isInfix.mpr hinf₀
  have hfind₀ : ∃ f₀, findSub token sep₀.data = some f₀ := by
    cases hf : findSub token sep₀.data with
    | none => exact absurd hq₀ (findSub_none hf q₀)
    | some f₀ => exact ⟨f₀, rfl⟩
  obtain ⟨f₀, hf₀⟩ := hfind₀
  have hmem₀ : (f₀, sep₀) ∈ foundList seps token := mem_foundList.mpr ⟨hsep₀, hf₀⟩
  have hpwf : List.Pairwise (fun a b : Nat × String =>
      a.1 = b.1 → a.2.length ≤ b.2.length) (foundList seps token) := by
    refine List.pairwise_filterMap.mpr ?_
    refine hpw.imp ?_
    intro a b hab x hx y hy
    simp only [Option.mem_def, Option.map_eq_some'] at hx hy
    obtain ⟨px, -, hx⟩ := hx
    obtain ⟨py, -, hy⟩ := hy
    cases hx
    cases hy
    exact fun _ => hab
  cases hfl : foundList seps token with
  | nil => rw [hfl] at hmem₀; simp at hmem₀
  | cons f fs =>
    rw [hfl] at hpwf hmem₀
    obtain ⟨hmem, hmin, hlong⟩ := pickMinAux_spec fs f hpwf
    set w := pickMinAux f fs with hwdef
    have hwmem : w ∈ foundList seps token := by rw [hfl]; exact hmem
    have hw' : w.2 ∈ seps ∧ findSub token w.2.data = some w.1 := by
      have hp : (w.1, w.2) ∈ foundList seps token := by
        have he : (w.1, w.2) = w := rfl
        rw [he]; exact hwmem
      exact mem_foundList.mp hp
    refine ⟨w.1, w.2, ?_, hw'.1, findSub_some_isPre hw'.2, ?_, ?_⟩
    · unfold bestSep
      rw [hfl]
    · intro sep' hsep' q hq
      cases hf' : findSub token sep'.data with
      | none => exact absurd hq (findSub_none hf' q)
      | some f' =>
        have hmemf' : (f', sep') ∈ f :: fs := by
          rw [← hfl]; exact mem_foundList.mpr ⟨hsep', hf'⟩
        exact le_trans (hmin _ hmemf') (findSub_some_min hf' q hq)
    · intro sep' hsep' hq
      cases hf' : findSub token sep'.data with
      | none => exact absurd hq (findSub_none hf' w.1)
      | some f' =>
        have hmemf' : (f', sep') ∈ f :: fs := by
          rw [← hfl]; exact mem_foundList.mpr ⟨hsep', hf'⟩
        have h1 : f' ≤ w.1 := findSub_some_min hf' w.1 hq
        have h2 : w.1 ≤ f' := hmin _ hmemf'
        exact hlong (f', sep') hmemf' (le_antisymm h1 h2)

/-! ### Tokenizer facts -/

theorem tokenizeAux_no_backslash (special : List Char) :
    ∀ (s acc : List Char), '\\' ∉ s →
      tokenizeAux special s acc = [.plain (acc ++ s)] := by
  intro s
  induction s with
  | nil =>
    intro acc _
    rw [tokenizeAux.eq_def]
    dsimp only
    rw [List.append_nil]
  | cons c rest ih =>
    intro acc hnb
    have hc : ¬ c = '\\' := fun h => hnb (by rw [h]; exact List.mem_cons_self _ _)
    rw [tokenizeAux.eq_def]
    dsimp only
    rw [if_neg hc, ih (acc ++ [c]) (fun h => hnb (List.mem_cons_of_mem c h)),
      List.append_assoc]
    rfl

theorem tokenize_no_backslash {special s : List Char} (h : '\\' ∉ s) :
    tokenize special s = [.plain s] := by
  rw [tokenize, tokenizeAux_no_backslash special s [] h, List.nil_append]

/-! ### Facts about the concrete separator list -/

theorem sortByLen_all_items_pw :
    List.Pairwise (fun a b : String => a.length ≤ b.length)
      (sortByLen SEP_GROUP_ALL_ITEMS) := by decide

theorem mem_sortByLen_all_items {s : String} :
    s ∈ sortByLen SEP_GROUP_ALL_ITEMS ↔ s ∈ SEP_GROUP_ALL_ITEMS := by
  have h : sortByLen SEP_GROUP_ALL_ITEMS =
      ["@", "=", ":", "=@", ":=", "==", ":=@"] := by decide
  rw [h]
  simp only [SEP_GROUP_ALL_ITEMS, SEP_HEADERS, SEP_QUERY, SEP_DATA,
    SEP_DATA_RAW_JSON, SEP_FILES, SEP_DATA_EMBED_FILE,
    SEP_DATA_EMBED_RAW_JSON_FILE, List.mem_cons, List.mem_singleton]
  tauto

/-- C1: for every backslash-free item string in which a candidate separator
occurs, the resolver splits at the occurrence with the smallest start
offset, and among candidates at that offset at a longest one; in
particular `"a:=b"` resolves to separator `:=` with key `a` and value `b`,
not to `:` with value `=b`. -/
theorem C1_earliest_then_longest_separator (s : String) (hnb : '\\' ∉ s.data)
    (hocc : ∃ sep ∈ SEP_GROUP_ALL_ITEMS, sep.data <:+: s.data) :
    (∃ p sep, sep ∈ SEP_GROUP_ALL_ITEMS ∧
      keyValueArgCall SEP_GROUP_ALL_ITEMS s =
        .ok { key := ⟨s.data.take p⟩, value := ⟨s.data.drop (p + sep.length)⟩,
              sep := sep, orig := s } ∧
      sep.data <+: s.data.drop p ∧
      (∀ sep' ∈ SEP_GROUP_ALL_ITEMS, ∀ q, sep'.data <+: s.data.drop q → p ≤ q) ∧
      (∀ sep' ∈ SEP_GROUP_ALL_ITEMS, sep'.data <+: s.data.drop p →
        sep'.length ≤ sep.length)) ∧
    keyValueArgCall SEP_GROUP_ALL_ITEMS "a:=b" =
      .ok { key := "a", value := "b", sep := SEP_DATA_RAW_JSON, orig := "a:=b" } := by
  constructor
  · have hocc' : ∃ sep ∈ sortByLen SEP_GROUP_ALL_ITEMS, sep.data <:+: s.data := by
      obtain ⟨sep, hs, hi⟩ := hocc
      exact ⟨sep, mem_sortByLen_all_items.mpr hs, hi⟩
    obtain ⟨p, sep, hbs, hmem, hpre, hmin, hlong⟩ :=
      bestSep_spec sortByLen_all_items_pw hocc'
    refine ⟨p, sep, mem_sortByLen_all_items.mp hmem, ?_, hpre, ?_, ?_⟩
    · unfold keyValueArgCall
      rw [tokenize_no_backslash hnb]
      simp only [resolveLoop]
      rw [hbs]
      simp [joinTokens]
    · intro sep' hs' q hq
      exact hmin sep' (mem_sortByLen_all_items.mpr hs') q hq
    · intro sep' hs' hq
      exact hlong sep' (mem_sortByLen_all_items.mpr hs') hq
  · rfl

/-- Witness for C1 at the concrete input `"a:=b"`. -/
theorem C1_earliest_then_longest_separator_witness :
    (∃ p sep, sep ∈ SEP_GROUP_ALL_ITEMS ∧
      keyValueArgCall SEP_GROUP_ALL_ITEMS "a:=b" =
        .ok { key := ⟨("a:=b" : String).data.take p⟩,
              value := ⟨("a:=b" : String).data.drop (p + sep.length)⟩,
              sep := sep, orig := "a:=b" } ∧
      sep.data <+: ("a:=b" : String).data.drop p ∧
      (∀ sep' ∈ SEP_GROUP_ALL_ITEMS, ∀ q,
        sep'.data <+: ("a:=b" : String).data.drop q → p ≤ q) ∧
      (∀ sep' ∈ SEP_GROUP_ALL_ITEMS, sep'.data <+: ("a:=b" : String).data.drop p →
        sep'.length ≤ sep.length)) ∧
    keyValueArgCall SEP_GROUP_ALL_ITEMS "a:=b" =
      .ok { key := "a", value := "b", sep := SEP_DATA_RAW_JSON, orig := "a:=b" } :=
  C1_earliest_then_longest_separator "a:=b" (by decide)
    ⟨SEP_DATA_RAW_JSON, by decide, by decide⟩

theorem joinTokens_cons (t : Token) (ts : List Token) :
    joinTokens (t :: ts) = t.text ++ joinTokens ts := rfl

/-- Joining all tokens of the tokenizer output reproduces the unescaped
text. -/
theorem joinTokens_tokenizeAux (special : List Char) :
    ∀ (s acc : List Char),
      joinTokens (tokenizeAux special s acc) = acc ++ unescape special s := by
  intro s acc
  induction s, acc using tokenizeAux.induct special with
  | case1 acc =>
    rw [tokenizeAux, unescape]
    simp [joinTokens, Token.text]
  | case2 acc =>
    rw [tokenizeAux.eq_def, unescape.eq_def]
    simp [joinTokens, Token.text]
  | case3 acc c' rest' hsp ih =>
    rw [tokenizeAux.eq_def, unescape.eq_def]
    simp [hsp, joinTokens_cons, Token.text, ih]
  | case4 acc c' rest' hsp ih =>
    rw [tokenizeAux.eq_def, unescape.eq_def]
    simp [hsp, ih]
  | case5 c rest acc hc ih =>
    rw [tokenizeAux.eq_def, unescape.eq_def]
    simp [hc, ih]

theorem joinTokens_tokenize (special s : List Char) :
    joinTokens (tokenize special s) = unescape special s := by
  rw [tokenize, joinTokens_tokenizeAux, List.nil_append]

/-! ### The resolver reconstructs the unescaped text -/

theorem pickMinAux_mem :
    ∀ (es : List (Nat × String)) (best : Nat × String),
      pickMinAux best es ∈ best :: es := by
  intro es
  induction es with
  | nil =>
    intro best
    rw [pickMinAux]
    exact List.mem_cons_self _ _
  | cons e es' ih =>
    intro best
    rw [pickMinAux]
    rcases List.mem_cons.mp (ih (if e.1 ≤ best.1 then e else best)) with heq | h
    · rw [heq]
      split
      · exact List.mem_cons_of_mem _ (List.mem_cons_self _ _)
      · exact List.mem_cons_self _ _
    · exact List.mem_cons_of_mem _ (List.mem_cons_of_mem _ h)

theorem bestSep_some_isPre {seps : List String} {t : List Char} {pos : Nat}
    {sp : String} (h : bestSep seps t = some (pos, sp)) :
    sp ∈ seps ∧ sp.data <+: t.drop pos := by
  unfold bestSep at h
  cases hfl : foundList seps t with
  | nil => rw [hfl] at h; exact absurd h (by simp)
  | cons f fs =>
    rw [hfl] at h
    injection h with h
    have hmem : (pos, sp) ∈ foundList seps t := by
      rw [hfl, ← h]
      exact pickMinAux_mem fs f
    obtain ⟨hsp, hfind⟩ := mem_foundList.mp hmem
    exact ⟨hsp, findSub_some_isPre hfind⟩

/-- Splitting a list at a pattern known to occur at `pos` and re-inserting
the pattern reproduces the list. -/
theorem bestSep_none_no_occurrence {seps : List String} {tok : List Char}
    (h : bestSep seps tok = none) :
    ∀ sep ∈ seps, ¬ sep.data <:+: tok := by
  intro sep hsep hinf
  obtain ⟨q, hq⟩ := exists_drop_iff_isInfix.mpr hinf
  cases hf : findSub tok sep.data with
  | none => exact findSub_none hf q hq
  | some p =>
    have hmem : (p, sep) ∈ foundList seps tok := mem_foundList.mpr ⟨hsep, hf⟩
    unfold bestSep at h
    cases hfl : foundList seps tok with
    | nil =>
      rw [hfl] at hmem
      simp at hmem
    | cons f fs =>
      rw [hfl] at h
      simp at h

/-- Every character of a member token appears in the joined text. -/
theorem mem_text_joinTokens {ts : List Token} {tok : Token} (h : tok ∈ ts) :
    ∀ c ∈ tok.text, c ∈ joinTokens ts := by
  induction ts with
  | nil => cases h
  | cons t' rest ih =>
    intro c hc
    rw [joinTokens_cons]
    rcases List.mem_cons.mp h with heq | hmem
    · exact List.mem_append_left _ (heq ▸ hc)
    · exact List.mem_append_right _ (ih hmem c hc)

/-- Structural characterization of a successful resolver run: the token
list splits as skipped tokens (whose plain members contain no
separator), then the single plain token inside which the split is made,
then the tail tokens; key and value are assembled around that in-token
split.  Escaped tokens are never split — they sit whole inside the
joined prefix or suffix. -/
theorem resolveLoop_some_decomp (seps : List String) :
    ∀ (ts : List Token) (pre k v : List Char) (sep : String),
      resolveLoop seps ts pre = some (k, v, sep) →
      ∃ ts₁ t ts₂ pos,
        ts = ts₁ ++ Token.plain t :: ts₂ ∧
        (∀ tok, Token.plain tok ∈ ts₁ → bestSep seps tok = none) ∧
        bestSep seps t = some (pos, sep) ∧
        k = pre ++ (joinTokens ts₁ ++ t.take pos) ∧
        v = t.drop (pos + sep.length) ++ joinTokens ts₂ := by
  intro ts
  induction ts with
  | nil =>
    intro pre k v sep h
    rw [resolveLoop] at h
    exact absurd h (by simp)
  | cons tk rest ih =>
    intro pre k v sep h
    cases tk with
    | escaped c =>
      rw [resolveLoop] at h
      obtain ⟨ts₁, t, ts₂, pos, hts, hskip, hbs, hk, hv⟩ :=
        ih (pre ++ [c]) k v sep h
      refine ⟨Token.escaped c :: ts₁, t, ts₂, pos, ?_, ?_, hbs, ?_, hv⟩
      · rw [hts]
        rfl
      · intro tok htok
        rcases List.mem_cons.mp htok with heq | hmem
        · simp at heq
        · exact hskip tok hmem
      · rw [hk, joinTokens_cons]
        simp [Token.text]
    | plain t₀ =>
      rw [resolveLoop] at h
      cases hbs : bestSep seps t₀ with
      | some ps =>
        obtain ⟨pos, sp⟩ := ps
        rw [hbs] at h
        injection h with h
        simp only [Prod.mk.injEq] at h
        obtain ⟨hk, hv, hsep⟩ := h
        subst hsep
        refine ⟨[], t₀, rest, pos, rfl, ?_, hbs, ?_, hv.symm⟩
        · intro tok htok
          exact absurd htok (List.not_mem_nil _)
        · rw [← hk]
          simp [joinTokens]
      | none =>
        rw [hbs] at h
        obtain ⟨ts₁, t, ts₂, pos, hts, hskip, hbs', hk, hv⟩ :=
          ih (pre ++ t₀) k v sep h
        refine ⟨Token.plain t₀ :: ts₁, t, ts₂, pos, ?_, ?_, hbs', ?_, hv⟩
        · rw [hts]
          rfl
        · intro tok htok
          rcases List.mem_cons.mp htok with heq | hmem
          · injection heq with heq'
            subst heq'
            exact hbs
          · exact hskip tok hmem
        · rw [hk, joinTokens_cons]
          simp [Token.text]

theorem split_at_sep {t pat : List Char} {pos : Nat} (h : pat <+: t.drop pos) :
    t.take pos ++ pat ++ t.drop (pos + pat.length) = t := by
  obtain ⟨u, hu⟩ := h
  have hd : t.drop (pos + pat.length) = u := by
    calc t.drop (pos + pat.length) = (t.drop pos).drop pat.length := by
          rw [List.drop_drop, Nat.add_comm]
    _ = (pat ++ u).drop pat.length := by rw [hu]
    _ = u := List.drop_left _ _
  rw [hd]
  conv_rhs => rw [← List.take_append_drop pos t, ← hu]
  rw [List.append_assoc]

theorem resolveLoop_join (seps : List String) :
    ∀ (ts : List Token) (pre k v : List Char) (sep : String),
      resolveLoop seps ts pre = some (k, v, sep) →
      k ++ sep.data ++ v = pre ++ joinTokens ts := by
  intro ts
  induction ts with
  | nil =>
    intro pre k v sep h
    rw [resolveLoop] at h
    exact absurd h (by simp)
  | cons t rest ih =>
    intro pre k v sep h
    cases t with
    | escaped c =>
      rw [resolveLoop] at h
      rw [ih (pre ++ [c]) k v sep h, joinTokens_cons]
      simp [Token.text]
    | plain tok =>
      rw [resolveLoop] at h
      cases hbs : bestSep seps tok with
      | none =>
        rw [hbs] at h
        rw [ih (pre ++ tok) k v sep h, joinTokens_cons]
        simp [Token.text]
      | some ps =>
        obtain ⟨pos, sp⟩ := ps
        rw [hbs] at h
        injection h with h
        simp only [Prod.mk.injEq] at h
        obtain ⟨hk, hv, hsep⟩ := h
        subst hk
        subst hv
        subst hsep
        rw [joinTokens_cons]
        have hsplit' : tok.take pos ++ sp.data ++ tok.drop (pos + sp.length) = tok :=
          split_at_sep (bestSep_some_isPre hbs).2
        calc (pre ++ tok.take pos) ++ sp.data ++
              (tok.drop (pos + sp.length) ++ joinTokens rest)
            = pre ++ ((tok.take pos ++ sp.data ++ tok.drop (pos + sp.length))
                ++ joinTokens rest) := by simp [List.append_assoc]
        _ = pre ++ (tok ++ joinTokens rest) := by rw [hsplit']
        _ = pre ++ ((Token.plain tok).text ++ joinTokens rest) := by
              simp [Token.text]

/-- C2: resolution never splits at an escaped separator character.  For
every successful resolution, the tokenization splits as skipped tokens
(whose plain members contain no candidate separator at all), one plain
token `t` inside which the un-escaped winning separator occurs at `pos`,
and the tail; the key is the joined skipped tokens plus `t` up to `pos`,
the value is `t` after the separator plus the joined tail — so the split
point always lies inside a plain token, escaped tokens are never cut,
every escaped character (in particular an escaped separator character)
appears literally in the key or the value, and key, separator and value
concatenate to the unescaped original text (backslash before a
non-special character keeps both characters, a trailing lone backslash
stays literal).  Concretely `key\=stillkey=value` keeps the escaped `=`
in the key, `a=b\` keeps the trailing backslash in the value, and
`a\xb=c` keeps `\x` in the key. -/
theorem C2_escaped_separator_never_splits :
    (∀ (s : String) (kv : KeyValue),
      keyValueArgCall SEP_GROUP_ALL_ITEMS s = .ok kv →
      ∃ ts₁ t ts₂ pos,
        tokenize (specialChars SEP_GROUP_ALL_ITEMS) s.data =
          ts₁ ++ Token.plain t :: ts₂ ∧
        (∀ tok, Token.plain tok ∈ ts₁ →
          ∀ sep' ∈ SEP_GROUP_ALL_ITEMS, ¬ sep'.data <:+: tok) ∧
        kv.sep ∈ SEP_GROUP_ALL_ITEMS ∧
        kv.sep.data <+: t.drop pos ∧
        kv.key.data = joinTokens ts₁ ++ t.take pos ∧
        kv.value.data = t.drop (pos + kv.sep.length) ++ joinTokens ts₂ ∧
        (∀ c, Token.escaped c ∈ ts₁ → c ∈ kv.key.data) ∧
        (∀ c, Token.escaped c ∈ ts₂ → c ∈ kv.value.data) ∧
        kv.key.data ++ kv.sep.data ++ kv.value.data =
          unescape (specialChars SEP_GROUP_ALL_ITEMS) s.data) ∧
    keyValueArgCall SEP_GROUP_ALL_ITEMS "key\\=stillkey=value" =
      .ok { key := "key=stillkey", value := "value", sep := SEP_DATA,
            orig := "key\\=stillkey=value" } ∧
    keyValueArgCall SEP_GROUP_ALL_ITEMS "a=b\\" =
      .ok { key := "a", value := "b\\", sep := SEP_DATA, orig := "a=b\\" } ∧
    keyValueArgCall SEP_GROUP_ALL_ITEMS "a\\xb=c" =
      .ok { key := "a\\xb", value := "c", sep := SEP_DATA, orig := "a\\xb=c" } := by
  refine ⟨?_, rfl, rfl, rfl⟩
  intro s kv h
  unfold keyValueArgCall at h
  cases hrl : resolveLoop (sortByLen SEP_GROUP_ALL_ITEMS)
      (tokenize (specialChars SEP_GROUP_ALL_ITEMS) s.data) [] with
  | none => rw [hrl] at h; exact absurd h (by simp)
  | some kvs =>
    obtain ⟨k, v, sp⟩ := kvs
    rw [hrl] at h
    injection h with h
    subst h
    have hj := resolveLoop_join _ _ _ _ _ _ hrl
    rw [List.nil_append, joinTokens_tokenize] at hj
    obtain ⟨ts₁, t, ts₂, pos, hts, hskip, hbs, hk, hv⟩ :=
      resolveLoop_some_decomp _ _ _ _ _ _ hrl
    have hkey : ({ key := ⟨k⟩, value := ⟨v⟩, sep := sp, orig := s } :
        KeyValue).key.data = joinTokens ts₁ ++ t.take pos := by
      simpa using hk
    have hval : ({ key := ⟨k⟩, value := ⟨v⟩, sep := sp, orig := s } :
        KeyValue).value.data =
          t.drop (pos + sp.length) ++ joinTokens ts₂ := hv
    obtain ⟨hspmem, hsppre⟩ := bestSep_some_isPre hbs
    refine ⟨ts₁, t, ts₂, pos, hts, ?_, mem_sortByLen_all_items.mp hspmem,
      hsppre, hkey, hval, ?_, ?_, hj⟩
    · intro tok htok sep' hsep'
      exact bestSep_none_no_occurrence (hskip tok htok) sep'
        (mem_sortByLen_all_items.mpr hsep')
    · intro c hc
      rw [hkey]
      exact List.mem_append_left _
        (mem_text_joinTokens hc c (by simp [Token.text]))
    · intro c hc
      rw [hval]
      exact List.mem_append_right _
        (mem_text_joinTokens hc c (by simp [Token.text]))

/-- Witness for C2 at `key\=stillkey=value`: the split is made inside
the plain token after the escaped `=`, which stays literally in the
key. -/
theorem C2_escaped_separator_never_splits_witness :
    ∃ ts₁ t ts₂ pos,
      tokenize (specialChars SEP_GROUP_ALL_ITEMS)
          ("key\\=stillkey=value" : String).data =
        ts₁ ++ Token.plain t :: ts₂ ∧
      (∀ tok, Token.plain tok ∈ ts₁ →
        ∀ sep' ∈ SEP_GROUP_ALL_ITEMS, ¬ sep'.data <:+: tok) ∧
      (SEP_DATA : String) ∈ SEP_GROUP_ALL_ITEMS ∧
      (SEP_DATA : String).data <+: t.drop pos ∧
      ("key=stillkey" : String).data = joinTokens ts₁ ++ t.take pos ∧
      ("value" : String).data =
        t.drop (pos + (SEP_DATA : String).length) ++ joinTokens ts₂ ∧
      (∀ c, Token.escaped c ∈ ts₁ → c ∈ ("key=stillkey" : String).data) ∧
      (∀ c, Token.escaped c ∈ ts₂ → c ∈ ("value" : String).data) ∧
      ("key=stillkey" : String).data ++ (SEP_DATA : String).data ++
          ("value" : String).data =
        unescape (specialChars SEP_GROUP_ALL_ITEMS)
          ("key\\=stillkey=value" : String).data :=
  C2_escaped_separator_never_splits.1 "key\\=stillkey=value"
    { key := "key=stillkey", value := "value", sep := SEP_DATA,
      orig := "key\\=stillkey=value" } rfl

/-! ### C9: failure when no separator occurs -/

theorem resolveLoop_none (seps : List String) :
    ∀ (ts : List Token),
      (∀ tok, Token.plain tok ∈ ts → ∀ sep ∈ seps, ¬ sep.data <:+: tok) →
      ∀ pre, resolveLoop seps ts pre = none := by
  intro ts
  induction ts with
  | nil => intro _ pre; rw [resolveLoop]
  | cons t rest ih =>
    intro hno pre
    cases t with
    | escaped c =>
      rw [resolveLoop]
      exact ih (fun tok htok => hno tok (List.mem_cons_of_mem _ htok)) _
    | plain tok =>
      have hbs : bestSep seps tok = none := by
        cases hbs : bestSep seps tok with
        | none => rfl
        | some ps =>
          obtain ⟨pos, sp⟩ := ps
          obtain ⟨hsp, hpre⟩ := bestSep_some_isPre hbs
          exact absurd (exists_drop_iff_isInfix.mp ⟨pos, hpre⟩)
            (hno tok (List.mem_cons_self _ _) sp hsp)
      rw [resolveLoop, hbs]
      exact ih (fun tok' htok' => hno tok' (List.mem_cons_of_mem _ htok')) _

/-- C9 counterexample: at the no-separator input `abc` the raised error
message reads `"abc" is not a valid value`, not `"abc" is not a valid
item` as the claim states. -/
theorem C9_counterexample_message :
    keyValueArgCall SEP_GROUP_ALL_ITEMS "abc" =
      .error "\"abc\" is not a valid value" ∧
    ¬ keyValueArgCall SEP_GROUP_ALL_ITEMS "abc" =
      .error "\"abc\" is not a valid item" :=
  ⟨rfl, fun h => by
    rw [show keyValueArgCall SEP_GROUP_ALL_ITEMS "abc" =
        Except.error "\"abc\" is not a valid value" from rfl] at h
    injection h with h
    exact absurd h (by decide)⟩

/-- C9 (amended): when no un-escaped candidate separator occurs in any
plain-text token, resolution fails with the error message
`"<original text>" is not a valid value`, and no `KeyValue` is produced. -/
theorem C9_no_separator_error (s : String)
    (hno : ∀ tok, Token.plain tok ∈
        tokenize (specialChars SEP_GROUP_ALL_ITEMS) s.data →
      ∀ sep ∈ SEP_GROUP_ALL_ITEMS, ¬ sep.data <:+: tok) :
    keyValueArgCall SEP_GROUP_ALL_ITEMS s =
      .error ("\"" ++ s ++ "\" is not a valid value") := by
  unfold keyValueArgCall
  rw [resolveLoop_none (sortByLen SEP_GROUP_ALL_ITEMS)
    (tokenize (specialChars SEP_GROUP_ALL_ITEMS) s.data)
    (fun tok htok sep hsep =>
      hno tok htok sep (mem_sortByLen_all_items.mp hsep)) []]

/-- Witness for C9 (amended) at the concrete input `abc`. -/
theorem C9_no_separator_error_witness :
    keyValueArgCall SEP_GROUP_ALL_ITEMS "abc" =
      .error ("\"" ++ "abc" ++ "\" is not a valid value") :=
  C9_no_separator_error "abc" (by
    intro tok htok sep hsep
    rw [show tokenize (specialChars SEP_GROUP_ALL_ITEMS) ("abc" : String).data =
        [Token.plain ['a', 'b', 'c']] from rfl, List.mem_singleton] at htok
    injection htok with htok
    subst htok
    fin_cases hsep <;> decide)

theorem dictLookup_ridSet_self {α : Type} (d : List (String × MultiVal α))
    (k : String) (v : α) :
    dictLookup k (ridSet d k v) =
      some (match dictLookup k d with
            | none => .single v
            | some (.single old) => .multi [old, v]
            | some (.multi vs) => .multi (vs ++ [v])) := by
  induction d with
  | nil => simp [ridSet, dictLookup]
  | cons p rest ih =>
    obtain ⟨k', mv⟩ := p
    by_cases h : k' = k
    · subst h
      simp only [ridSet, if_pos rfl, dictLookup]
      cases mv <;> rfl
    · simp [ridSet, dictLookup, h, ih]

theorem dictLookup_ridSet_other {α : Type} (d : List (String × MultiVal α))
    {k k₂ : String} (v : α) (h : k₂ ≠ k) :
    dictLookup k₂ (ridSet d k v) = dictLookup k₂ d := by
  induction d with
  | nil => simp [ridSet, dictLookup, Ne.symm h]
  | cons p rest ih =>
    obtain ⟨k', mv⟩ := p
    by_cases hk : k' = k
    · subst hk
      simp [ridSet, dictLookup, Ne.symm h]
    · simp [ridSet, dictLookup, hk, ih]

theorem keysOf_ridSet {α : Type} (d : List (String × MultiVal α))
    (k : String) (v : α) :
    keysOf (ridSet d k v) =
      if k ∈ keysOf d then keysOf d else keysOf d ++ [k] := by
  induction d with
  | nil => simp [ridSet, keysOf]
  | cons p rest ih =>
    obtain ⟨k', mv⟩ := p
    by_cases h : k' = k
    · subst h
      have hkc : keysOf ((k', mv) :: rest) = k' :: keysOf rest := rfl
      rw [hkc, if_pos (List.mem_cons_self k' (keysOf rest))]
      simp [ridSet, keysOf]
    · have hne : ¬ k = k' := fun hh => h hh.symm
      have hrs : ridSet ((k', mv) :: rest) k v = (k', mv) :: ridSet rest k v := by
        simp [ridSet, h]
      rw [hrs]
      have hcons : keysOf ((k', mv) :: ridSet rest k v) =
          k' :: keysOf (ridSet rest k v) := rfl
      rw [hcons, ih]
      by_cases hmem : k ∈ keysOf rest
      · rw [if_pos hmem,
          if_pos (show k ∈ keysOf ((k', mv) :: rest) from
            List.mem_cons_of_mem _ hmem)]
        rfl
      · rw [if_neg hmem,
          if_neg (show k ∉ keysOf ((k', mv) :: rest) from fun hmem' => by
            rcases List.mem_cons.mp hmem' with h1 | h2
            · exact hne h1
            · exact hmem h2)]
        rfl

theorem ridOfList_lookup {α : Type} (pairs : List (String × α)) (k : String) :
    dictLookup k (ridOfList pairs) = reprVals (valsOf k pairs) := by
  induction pairs using List.reverseRecOn with
  | nil => simp [ridOfList, dictLookup, valsOf, reprVals]
  | append_singleton l p ih =>
    have hfold : ridOfList (l ++ [p]) = ridSet (ridOfList l) p.1 p.2 := by
      rw [ridOfList, List.foldl_append]
      rfl
    by_cases h : p.1 = k
    · subst h
      rw [hfold, dictLookup_ridSet_self, ih]
      have hvals : valsOf p.1 (l ++ [p]) = valsOf p.1 l ++ [p.2] := by
        rw [valsOf, List.filterMap_append]
        simp [valsOf]
      rw [hvals]
      cases hv : valsOf p.1 l with
      | nil => simp [reprVals]
      | cons v vs =>
        cases vs with
        | nil => simp [reprVals]
        | cons v' vs' => simp [reprVals]
    · rw [hfold, dictLookup_ridSet_other _ _ (fun hh => h hh.symm), ih]
      have hvals : valsOf k (l ++ [p]) = valsOf k l := by
        rw [valsOf, List.filterMap_append]
        simp [valsOf, h]
      rw [hvals]

theorem ridOfList_keys {α : Type} (pairs : List (String × α)) :
    keysOf (ridOfList pairs) = firstOccur (pairs.map Prod.fst) := by
  induction pairs using List.reverseRecOn with
  | nil => simp [ridOfList, keysOf, firstOccur]
  | append_singleton l p ih =>
    have hfold : ridOfList (l ++ [p]) = ridSet (ridOfList l) p.1 p.2 := by
      rw [ridOfList, List.foldl_append]
      rfl
    have hfo : firstOccur ((l ++ [p]).map Prod.fst) =
        if p.1 ∈ firstOccur (l.map Prod.fst) then firstOccur (l.map Prod.fst)
        else firstOccur (l.map Prod.fst) ++ [p.1] := by
      rw [List.map_append, firstOccur, List.foldl_append]
      rfl
    rw [hfold, keysOf_ridSet, hfo, ih]

/-- C3: in a multi-value bucket (`RequestItemsDict`: query params, and
form-mode body fields), a key assigned exactly once maps to its single
value, a key assigned more than once maps to the list of all its values
in argument order, keys keep the position of their first appearance, and
concretely `a=1` then `a=2` yields `[1, 2]` for key `a`. -/
theorem C3_multi_value_dict (α : Type) (pairs : List (String × α)) (k : String) :
    dictLookup k (ridOfList pairs) = reprVals (valsOf k pairs) ∧
    keysOf (ridOfList pairs) = firstOccur (pairs.map Prod.fst) ∧
    dictLookup "a" (ridOfList [("a", "1"), ("a", "2")]) =
      some (.multi ["1", "2"]) :=
  ⟨ridOfList_lookup pairs k, ridOfList_keys pairs, rfl⟩

/-! ### `OrderedDict` lookup -/

theorem dictLookup_odSet_self {α : Type} (d : List (String × α)) (k : String)
    (v : α) :
    dictLookup k (odSet d k v) = some v := by
  induction d with
  | nil => simp [odSet, dictLookup]
  | cons p rest ih =>
    obtain ⟨k', v'⟩ := p
    by_cases h : k' = k
    · subst h
      simp [odSet, dictLookup]
    · simp [odSet, dictLookup, h, ih]

theorem dictLookup_odSet_other {α : Type} (d : List (String × α))
    {k k₂ : String} (v : α) (h : k₂ ≠ k) :
    dictLookup k₂ (odSet d k v) = dictLookup k₂ d := by
  induction d with
  | nil => simp [odSet, dictLookup, Ne.symm h]
  | cons p rest ih =>
    obtain ⟨k', v'⟩ := p
    by_cases hk : k' = k
    · subst hk
      simp [odSet, dictLookup, Ne.symm h]
    · simp [odSet, dictLookup, hk, ih]

theorem odOfList_lookup {α : Type} (pairs : List (String × α)) (k : String) :
    dictLookup k (odOfList pairs) = (valsOf k pairs).getLast? := by
  induction pairs using List.reverseRecOn with
  | nil => simp [odOfList, dictLookup, valsOf]
  | append_singleton l p ih =>
    have hfold : odOfList (l ++ [p]) = odSet (odOfList l) p.1 p.2 := by
      rw [odOfList, List.foldl_append]
      rfl
    by_cases h : p.1 = k
    · subst h
      rw [hfold, dictLookup_odSet_self]
      have hvals : valsOf p.1 (l ++ [p]) = valsOf p.1 l ++ [p.2] := by
        rw [valsOf, List.filterMap_append]
        simp [valsOf]
      rw [hvals, List.getLast?_concat]
    · rw [hfold, dictLookup_odSet_other _ _ (fun hh => h hh.symm), ih]
      have hvals : valsOf k (l ++ [p]) = valsOf k l := by
        rw [valsOf, List.filterMap_append]
        simp [valsOf, h]
      rw [hvals]

/-- C10: with form mode off, the body-fields bucket is the plain ordered
single-value mapping: the later of two same-key data items silently
replaces the earlier one (lookup yields the last assigned value) and the
result is never a list; only form mode selects the multi-value-capable
bucket.  Concretely, data items `a=1` then `a=2` classify in order and
wrap to the single value `2`. -/
theorem C10_form_off_single_value_bucket (J : Type)
    (pairs : List (String × DataValue J)) (k : String) :
    makeDataBucket false pairs = .singleValued (odOfList pairs) ∧
    dictLookup k (odOfList pairs) = (valsOf k pairs).getLast? ∧
    makeDataBucket true pairs = .multiValued (ridOfList pairs) ∧
    (parse_items (fun _ => Except.error "unused") (fun s => Except.ok s)
        [⟨"a", "1", SEP_DATA, "a=1"⟩, ⟨"a", "2", SEP_DATA, "a=2"⟩] =
      .ok ⟨[], [("a", .str "1"), ("a", .str "2")], [], []⟩) ∧
    makeDataBucket false
        [("a", DataValue.str "1"), ("a", (DataValue.str "2" : DataValue String))] =
      .singleValued [("a", DataValue.str "2")] :=
  ⟨rfl, odOfList_lookup pairs k, rfl, rfl, rfl⟩

/-! ### C8: embedded file items -/

theorem parse_items_nil {J : Type} (fs : String → Except String (List Nat))
    (loadJson : String → Except String J) :
    parse_items fs loadJson [] = .ok ⟨[], [], [], []⟩ := rfl

theorem embeddedText_embed_ok {fs : String → Except String (List Nat)}
    {item : KeyValue} {bytes : List Nat} {text : String}
    (hsep : item.sep = SEP_DATA_EMBED_FILE)
    (hfs : fs item.value = .ok bytes) (hdec : decodeUtf8 bytes = some text) :
    embeddedText fs item = .ok text := by
  unfold embeddedText
  rw [if_pos (by rw [hsep]; decide), hfs]
  dsimp only
  rw [hdec]

theorem embeddedText_embed_badUtf8 {fs : String → Except String (List Nat)}
    {item : KeyValue} {bytes : List Nat}
    (hsep : item.sep = SEP_DATA_EMBED_FILE)
    (hfs : fs item.value = .ok bytes) (hdec : decodeUtf8 bytes = none) :
    embeddedText fs item =
      .error ("\"" ++ item.orig ++ "\": cannot embed the content of \"" ++
        item.value ++ "\", not a UTF8 or ASCII-encoded text file") := by
  unfold embeddedText
  rw [if_pos (by rw [hsep]; decide), hfs]
  dsimp only
  rw [hdec]

theorem dataValue_embed_str {J : Type} {fs : String → Except String (List Nat)}
    {loadJson : String → Except String J} {item : KeyValue} {bytes : List Nat}
    {text : String} (hsep : item.sep = SEP_DATA_EMBED_FILE)
    (hfs : fs item.value = .ok bytes) (hdec : decodeUtf8 bytes = some text) :
    dataValue fs loadJson item = .ok (.str text) := by
  unfold dataValue
  rw [embeddedText_embed_ok hsep hfs hdec]
  dsimp only
  rw [if_neg (by rw [hsep]; decide)]

/-- C8: a `DATA_EMBED_FILE` (`=@`) item whose value names a readable
file with valid UTF-8 bytes classifies to a body field whose value is
exactly the decoded text of the file's bytes; a decode failure raises
the parse error stating the file is not UTF-8/ASCII text. -/
theorem C8_embed_file_roundtrip (J : Type)
    (fs : String → Except String (List Nat))
    (loadJson : String → Except String J) (item : KeyValue)
    (bytes : List Nat) (hsep : item.sep = SEP_DATA_EMBED_FILE) :
    (∀ text, fs item.value = .ok bytes → decodeUtf8 bytes = some text →
      parse_items fs loadJson [item] =
        .ok ⟨[], [(item.key, .str text)], [], []⟩) ∧
    (fs item.value = .ok bytes → decodeUtf8 bytes = none →
      parse_items fs loadJson [item] =
        .error ("\"" ++ item.orig ++ "\": cannot embed the content of \"" ++
          item.value ++ "\", not a UTF8 or ASCII-encoded text file")) := by
  constructor
  · intro text hfs hdec
    rw [parse_items]
    rw [hsep]
    rw [if_neg (by decide), if_neg (by decide), if_neg (by decide),
      if_pos (by decide)]
    rw [show dataValue fs loadJson item = .ok (.str text) from
      dataValue_embed_str hsep hfs hdec]
    dsimp only
    rw [parse_items_nil]
  · intro hfs hdec
    rw [parse_items]
    rw [hsep]
    rw [if_neg (by decide), if_neg (by decide), if_neg (by decide),
      if_pos (by decide)]
    rw [show dataValue fs loadJson item =
        .error ("\"" ++ item.orig ++ "\": cannot embed the content of \"" ++
          item.value ++ "\", not a UTF8 or ASCII-encoded text file") from by
      unfold dataValue
      rw [embeddedText_embed_badUtf8 hsep hfs hdec]]

/-- Witness for C8 at a one-file filesystem mapping `f.txt` to the
bytes `[104, 105]` (`hi`). -/
theorem C8_embed_file_roundtrip_witness :
    parse_items
        (fun p => if p = "f.txt" then .ok [104, 105]
                  else .error "No such file or directory")
        (fun s => Except.ok s)
        [⟨"k", "f.txt", SEP_DATA_EMBED_FILE, "k=@f.txt"⟩] =
      .ok ⟨[], [("k", .str "hi")], [], []⟩ :=
  (C8_embed_file_roundtrip String
    (fun p => if p = "f.txt" then .ok [104, 105]
              else .error "No such file or directory")
    (fun s => Except.ok s)
    ⟨"k", "f.txt", SEP_DATA_EMBED_FILE, "k=@f.txt"⟩
    [104, 105] rfl).1 "hi" rfl rfl

/-! ### C4: URL normalization -/

/-- C4: after post-processing, a URL matching a `scheme://` prefix is
unchanged; one matching the `:port/path` / `:/path` shorthand becomes
`http://localhost` plus the (non-empty) port plus the rest; anything
else gets `http://` prepended.  Concretely `:8080/x` normalizes to
`http://localhost:8080/x`. -/
theorem C4_url_normalization (url : String) :
    (urlSchemeMatch url = true → normalizeURL url = url) ∧
    (∀ port rest, urlSchemeMatch url = false →
      shorthandMatch url.data = some (port, rest) →
      normalizeURL url =
        HTTP ++ "localhost" ++
          (if port.isEmpty then "" else ":" ++ (⟨port⟩ : String)) ++
          (⟨rest⟩ : String)) ∧
    (urlSchemeMatch url = false → shorthandMatch url.data = none →
      normalizeURL url = HTTP ++ url) ∧
    normalizeURL ":8080/x" = "http://localhost:8080/x" := by
  refine ⟨?_, ?_, ?_, rfl⟩
  · intro h
    unfold normalizeURL
    rw [h, if_pos rfl]
  · intro port rest h1 h2
    unfold normalizeURL
    rw [h1, h2]
    rfl
  · intro h1 h2
    unfold normalizeURL
    rw [h1, h2]
    rfl

/-- Witness for C4 at `:8080/x`. -/
theorem C4_url_normalization_witness :
    normalizeURL ":8080/x" =
      HTTP ++ "localhost" ++
        (if (['8', '0', '8', '0'] : List Char).isEmpty then ""
         else ":" ++ (⟨['8', '0', '8', '0']⟩ : String)) ++
        (⟨['/', 'x']⟩ : String) :=
  (C4_url_normalization ":8080/x").2.1 ['8', '0', '8', '0'] ['/', 'x'] rfl rfl

/-! ### C5: method inference -/

/-- C5: with no HTTP method token supplied (hence no item arguments),
the inferred method is `POST` exactly when standard input is
non-interactive and not ignored, and `GET` otherwise. -/
theorem C5_method_inference :
    ∀ ignoreStdin stdinIsatty : Bool,
      (guessMethodDefault ignoreStdin stdinIsatty = HTTP_POST ↔
        ignoreStdin = false ∧ stdinIsatty = false) ∧
      (guessMethodDefault ignoreStdin stdinIsatty = HTTP_GET ↔
        (ignoreStdin = true ∨ stdinIsatty = true)) := by
  decide

/-! ### C6: auth post-processing -/

/-- C6 counterexample: with an explicit password-less credential and
`--ignore-stdin` set, standard input has *not* been fully consumed
(`stdinConsumed true true = false`), yet `_process_auth` raises the
configuration error instead of prompting — the claim predicts the error
only when stdin has already been fully consumed, and a prompt here. -/
theorem C6_counterexample_error_condition :
    stdinConsumed true true = false ∧
    processAuth (some ⟨"u", none, SEP_CREDENTIALS, "u"⟩) true
        ⟨none, none, "example.org"⟩ =
      .configError
        "Unable to prompt for passwords because --ignore-stdin is set." ∧
    processAuth (some ⟨"u", none, SEP_CREDENTIALS, "u"⟩) true
        ⟨none, none, "example.org"⟩ ≠
      .promptPassword "u" "example.org" := by
  refine ⟨rfl, rfl, ?_⟩
  decide

/-- C6 (amended): an explicit credential lacking a password triggers an
interactive prompt, except that it is a fatal configuration error when
`--ignore-stdin` is set (regardless of whether stdin was consumed —
the code checks the flag, not consumption); with no explicit credential
and a URL carrying `user[:pass]@`, credentials are synthesized from the
URL and nothing prompts. -/
theorem C6_auth_processing (a : AuthCredentials) (ignoreStdin : Bool)
    (url : UrlSplit) (u : String) :
    (a.value = none →
      processAuth (some a) ignoreStdin url =
        (if ignoreStdin then
          .configError
            "Unable to prompt for passwords because --ignore-stdin is set."
        else .promptPassword a.key url.netloc)) ∧
    (url.username = some u →
      processAuth none ignoreStdin url =
        .setFromUrl ⟨u, some (url.password.getD ""), SEP_CREDENTIALS,
          u ++ SEP_CREDENTIALS ++ url.password.getD ""⟩ ∧
      ∀ k n, processAuth none ignoreStdin url ≠ .promptPassword k n) := by
  constructor
  · intro hv
    simp [processAuth, hv]
  · intro hu
    constructor
    · simp [processAuth, hu]
    · intro k n
      simp [processAuth, hu]

/-- Witness for C6 (amended) at concrete credentials and URL. -/
theorem C6_auth_processing_witness :
    (processAuth (some ⟨"u", none, SEP_CREDENTIALS, "u"⟩) true
        ⟨some "w", some "p", "example.org"⟩ =
      (if true then
        AuthAction.configError
          "Unable to prompt for passwords because --ignore-stdin is set."
      else AuthAction.promptPassword "u" "example.org")) ∧
    (processAuth none true ⟨some "w", some "p", "example.org"⟩ =
      .setFromUrl ⟨"w", some ((some "p").getD ""), SEP_CREDENTIALS,
        "w" ++ SEP_CREDENTIALS ++ (some "p").getD ""⟩ ∧
      ∀ k n, processAuth none true ⟨some "w", some "p", "example.org"⟩ ≠
        .promptPassword k n) :=
  ⟨(C6_auth_processing ⟨"u", none, SEP_CREDENTIALS, "u"⟩ true
      ⟨some "w", some "p", "example.org"⟩ "w").1 rfl,
   (C6_auth_processing ⟨"u", none, SEP_CREDENTIALS, "u"⟩ true
      ⟨some "w", some "p", "example.org"⟩ "w").2 rfl⟩

/-! ### C7: default headers and JSON body serialization -/

/-- C7 counterexample: with the explicit JSON flag set, form off and no
body data at all, the default headers do contain
`Content-Type: application/json` even though no body is present — the
claim's "exactly when a body is actually present" fails. -/
theorem C7_counterexample_content_type :
    (ClientArgs.mk true false [] []).data.isEmpty = true ∧
    dictLookup "Content-Type" (get_default_headers ⟨true, false, [], []⟩) =
      some JSON ∧
    requestData ⟨true, false, [], []⟩ = .text "" := ⟨rfl, rfl, rfl⟩

/-- C7 (amended): whenever JSON body mode is active (explicit flag, or
body data present with form mode off), the default headers contain both
`Accept: application/json` and `Content-Type: application/json` — the
Content-Type is set in every JSON-mode case, including the explicit
flag with an empty body, not only when a body is present; the
body-fields mapping serializes to JSON text, the empty mapping
serializing to empty text rather than `{}`. -/
theorem C7_json_mode_headers (args : ClientArgs)
    (h : (args.json || autoJson args) = true) :
    dictLookup "Accept" (get_default_headers args) = some "application/json" ∧
    dictLookup "Content-Type" (get_default_headers args) = some JSON ∧
    requestData args =
      .text (if !args.data.isEmpty then jsonDumps args.data else "") ∧
    (args.data = [] → requestData args = .text "" ∧
      jsonDumps [] = "\x7b\x7d" ∧ ("" : String) ≠ "\x7b\x7d") := by
  have hinner : (args.json || (autoJson args && !args.data.isEmpty)) = true := by
    cases hj : args.json
    · rw [hj] at h
      simp only [Bool.false_or] at h
      have h2 := h
      simp [autoJson] at h2
      rw [h]
      simp [h2.1]
    · rfl
  have hh : get_default_headers args =
      [("User-Agent", DEFAULT_UA), ("Accept", "application/json"),
       ("Content-Type", JSON)] := by
    unfold get_default_headers
    rw [h, hinner]
    simp
  refine ⟨by rw [hh]; rfl, by rw [hh]; rfl, ?_, ?_⟩
  · unfold requestData
    rw [h, if_pos rfl]
  · intro hdata
    refine ⟨?_, rfl, by decide⟩
    unfold requestData
    rw [h, if_pos rfl, hdata]
    rfl

/-- Witness for C7 (amended) at the explicit-flag empty-body input. -/
theorem C7_json_mode_headers_witness :
    dictLookup "Accept" (get_default_headers ⟨true, false, [], []⟩) =
      some "application/json" ∧
    dictLookup "Content-Type" (get_default_headers ⟨true, false, [], []⟩) =
      some JSON ∧
    requestData ⟨true, false, [], []⟩ = .text "" ∧
    jsonDumps [] = "\x7b\x7d" :=
  ⟨(C7_json_mode_headers ⟨true, false, [], []⟩ rfl).1,
   (C7_json_mode_headers ⟨true, false, [], []⟩ rfl).2.1,
   ((C7_json_mode_headers ⟨true, false, [], []⟩ rfl).2.2.2 rfl).1,
   ((C7_json_mode_headers ⟨true, false, [], []⟩ rfl).2.2.2 rfl).2.1⟩

end Httpie
